import Mathlib

/-!
# Verification of the chiadev/openapi gateway

Shallow embedding of `src/openapi/api.py` together with the binary Program
codec it relies on.  The API layer (`get_utxos`, `query_balance`,
`full_node_rpc`, `list_nfts`, the cache key builders) is translated directly
from `api.py`; its collaborators that live outside `src/` (the Program codec,
`get_nft_info`, the RPC client) appear either as explicit function parameters
or, for the codec, as a model built from the specification.

Machine integers are modelled as `Nat`; byte streams as `List Nat` whose
elements are byte values; fallible calls return `Except`.
-/

/-! ## Binary Program codec

Modelled from the spec: the `Program` type and its canonical serialization
(`encode` / `decode`) live in `openapi/types.py`, which is not under `src/`.
The definitions below follow the spec's encoding rules (§4.1): a single byte
`0x00..0x7F` is itself a one-byte atom; otherwise an atom is a 1–5 byte
length prefix followed by the raw bytes (empty atom = `0x80`); `0xFF`
introduces a pair, followed by the encodings of `first` then `rest`.
-/

/-- A Program is a cons-pair tree whose leaves are byte-string atoms. -/
inductive Program where
  | atom (bs : List Nat)
  | pair (first rest : Program)
deriving DecidableEq, Repr

/-- The 1–5 byte variable-length size prefix for an atom of `n` bytes.
Lengths of `0x400000000` or more have no encoding (the source raises);
the model returns `[]` there, a case excluded by `validProgram`. -/
def sizeBlob (n : Nat) : List Nat :=
  if n < 0x40 then [0x80 + n]
  else if n < 0x2000 then [0xC0 + n / 0x100, n % 0x100]
  else if n < 0x100000 then
    [0xE0 + n / 0x10000, n / 0x100 % 0x100, n % 0x100]
  else if n < 0x8000000 then
    [0xF0 + n / 0x1000000, n / 0x10000 % 0x100, n / 0x100 % 0x100, n % 0x100]
  else if n < 0x400000000 then
    [0xF8 + n / 0x100000000, n / 0x1000000 % 0x100, n / 0x10000 % 0x100,
      n / 0x100 % 0x100, n % 0x100]
  else []

/-- Canonical serialization of a Program. -/
def encode : Program → List Nat
  | .atom [b] => if b < 0x80 then [b] else sizeBlob 1 ++ [b]
  | .atom bs => sizeBlob bs.length ++ bs
  | .pair f r => 0xFF :: (encode f ++ encode r)

/-- Every atom is short enough to have a length prefix (the source raises
`ValueError` past `0x400000000` bytes, so such programs never exist). -/
def validProgram : Program → Bool
  | .atom bs => bs.length < 0x400000000
  | .pair f r => validProgram f && validProgram r

/-- Read `n` raw bytes off the front of the stream. -/
def readBytes (n : Nat) (s : List Nat) : Option (List Nat × List Nat) :=
  if n ≤ s.length then some (s.take n, s.drop n) else none

/-- Given the first byte `b` of an atom's length prefix (`0x80 ≤ b < 0xFF`)
and the remaining stream, recover the atom length and the stream position
after the prefix.  `0xFC..0xFE` would announce a prefix longer than five
bytes and is malformed. -/
def decodeSize (b : Nat) (s : List Nat) : Option (Nat × List Nat) :=
  if b < 0xC0 then some (b - 0x80, s)
  else if b < 0xE0 then
    match s with
    | b1 :: s1 => some ((b - 0xC0) * 0x100 + b1, s1)
    | [] => none
  else if b < 0xF0 then
    match s with
    | b1 :: b2 :: s2 => some (((b - 0xE0) * 0x100 + b1) * 0x100 + b2, s2)
    | _ => none
  else if b < 0xF8 then
    match s with
    | b1 :: b2 :: b3 :: s3 =>
      some ((((b - 0xF0) * 0x100 + b1) * 0x100 + b2) * 0x100 + b3, s3)
    | _ => none
  else if b < 0xFC then
    match s with
    | b1 :: b2 :: b3 :: b4 :: s4 =>
      some (((((b - 0xF8) * 0x100 + b1) * 0x100 + b2) * 0x100 + b3) * 0x100
        + b4, s4)
    | _ => none
  else none

/-- Fuelled decoder: one unit of fuel per tree node, so any input of length
`n` is fully decoded with fuel `n` (no recursion-depth failures on deep
inputs, matching the spec's explicit-stack requirement). -/
def decodeFuel : Nat → List Nat → Option (Program × List Nat)
  | 0, _ => none
  | _, [] => none
  | fuel + 1, b :: s =>
    if b = 0xFF then
      match decodeFuel fuel s with
      | none => none
      | some (f, s1) =>
        match decodeFuel fuel s1 with
        | none => none
        | some (r, s2) => some (.pair f r, s2)
    else if b < 0x80 then some (.atom [b], s)
    else
      match decodeSize b s with
      | none => none
      | some (n, s1) =>
        match readBytes n s1 with
        | none => none
        | some (bs, s2) => some (.atom bs, s2)

/-- Decode one Program off the front of a byte stream, returning it together
with the unconsumed remainder; `none` on truncated or invalid input. -/
def decode (s : List Nat) : Option (Program × List Nat) :=
  decodeFuel s.length s

/-- A byte string is canonical when it is the encoding of some valid
Program. -/
def canonicalBytes (B : List Nat) : Prop :=
  ∃ P, validProgram P = true ∧ encode P = B

/-- Number of tree nodes; a lower bound on fuel needed by `decodeFuel`. -/
def nodeCount : Program → Nat
  | .atom _ => 1
  | .pair f r => 1 + nodeCount f + nodeCount r

/-! ## Data model of the API layer (`api.py`)

Coins and coin records as returned by the full node RPC; amounts are
non-negative integers (`Nat`), hashes travel as hex strings. -/

/-- A coin as it appears in an RPC coin record (hex-string hashes). -/
structure Coin where
  parent_coin_info : String
  puzzle_hash : String
  amount : Nat
deriving DecidableEq, Repr

/-- A coin record: a coin plus chain metadata. -/
structure CoinRecord where
  coin : Coin
  confirmed_block_index : Nat
  spent : Bool
deriving DecidableEq, Repr

/-- Response item of `/utxos` (`class UTXO`): the amount is a string for
JavaScript compatibility. -/
structure UTXO where
  parent_coin_info : String
  puzzle_hash : String
  amount : String
deriving DecidableEq, Repr

/-- `coin_javascript_compat` from `api.py`: passes the two hashes through
and renders the amount with `str(...)` (decimal). -/
def coin_javascript_compat (coin : Coin) : UTXO :=
  { parent_coin_info := coin.parent_coin_info
    puzzle_hash := coin.puzzle_hash
    amount := toString coin.amount }

/-- The `/utxos` handler body after the RPC call: drop spent records, keep
the rest in order, converted by `coin_javascript_compat`. -/
def get_utxos (coin_records : List CoinRecord) : List UTXO :=
  coin_records.foldl
    (fun data row =>
      if row.spent then data else data ++ [coin_javascript_compat row.coin])
    []

/-- The `/balance` handler body after the RPC call:
`sum([c.coin.amount for c in coin_records if not c.spent])`. -/
def query_balance (coin_records : List CoinRecord) : Nat :=
  ((coin_records.filter (fun c => !c.spent)).map (fun c => c.coin.amount)).sum

/-! ## Cache configuration

Each cached route carries an `aiocache` decorator.  The key builders take
the handler's keyword arguments; `chain` is among them but unused. -/

/-- Key builder of `/utxos`. -/
def utxos_key_builder (address : String) (_chain : String) : String :=
  "utxos:" ++ address

/-- Key builder of `/balance`. -/
def balance_key_builder (address : String) (_chain : String) : String :=
  "balance:" ++ address

/-- Key builder of `/nfts`. -/
def nfts_key_builder (address : String) (_chain : String) : String :=
  "nfts:" ++ address

/-- The `@cached(...)` decorator data of one route. -/
structure CachedEndpoint where
  ttl : Nat
  key_builder : String → String → String

/-- `@cached(ttl=10, key_builder=..., alias='default')` on `/utxos`. -/
def utxos_cached : CachedEndpoint := ⟨10, utxos_key_builder⟩

/-- `@cached(ttl=10, key_builder=..., alias='default')` on `/balance`. -/
def balance_cached : CachedEndpoint := ⟨10, balance_key_builder⟩

/-- `@cached(ttl=20, key_builder=..., alias='default')` on `/nfts`. -/
def nfts_cached : CachedEndpoint := ⟨20, nfts_key_builder⟩

/-- A TTL-less model of the cache's get-or-compute step: serve the stored
value when the key is present, otherwise compute and store. -/
def cache_get_or_set {V : Type} (cache : List (String × V)) (key : String)
    (compute : V) : V × List (String × V) :=
  match cache.lookup key with
  | some v => (v, cache)
  | none => (compute, (key, compute) :: cache)

/-! ## The `/chia_rpc` endpoint -/

/-- An `HTTPException(status, detail)`. -/
structure HttpError where
  status : Nat
  detail : String
deriving DecidableEq, Repr

/-- `full_node_rpc` from `api.py`: reject methods outside the allow list
with HTTP 400, otherwise pass through to the client's `raw_fetch`. -/
def full_node_rpc {Params Response : Type}
    (white_list : List String) (raw_fetch : String → Params → Response)
    (method : String) (params : Params) : Except HttpError Response :=
  if method ∉ white_list then
    Except.error ⟨400, "unspport chia rpc method: " ++ method⟩
  else
    Except.ok (raw_fetch method params)

/-! ## The `/nfts` endpoint

`list_nfts` is translated from `api.py` with its out-of-repo collaborators
(`Program.fromhex`, `get_nft_info`, the RPC client's
`get_puzzle_and_solution`) passed as function parameters.  `NFTInfo` and
the extractor error taxonomy are modelled from the spec (the extractor
lives in `openapi/nft.py`, not under `src/`); `to_dict` is modelled as the
identity embedding of the record into the response list. -/

/-- Extraction failure kinds of `get_nft_info` (spec §7). -/
inductive ExtractError where
  | notAnNFT
  | unsupportedNFTVersion
  | malformedEncoding
deriving DecidableEq, Repr

/-- Modelled from the spec: the `NFTInfo` record produced by the extractor
in `openapi/nft.py` (spec §3). -/
structure NFTInfo where
  launcher_id : String
  owner : String
  current_owner_did : Option String
  metadata_uris : List String
  metadata_hash : String
  license_uris : List String
  royalty_address : String
  royalty_percentage : Nat
  transfer_program_hash : String
deriving DecidableEq, Repr

/-- Result of one `get_puzzle_and_solution` RPC call (hex-encoded). -/
structure PuzzleAndSolution where
  puzzle_reveal : String
  solution : String
deriving DecidableEq, Repr

/-- How a `/nfts` request can fail: an RpcError escaping `asyncio.gather`,
or a codec error escaping `Program.fromhex` (which sits outside the
per-coin `try`). -/
inductive ListNftsError where
  | rpc (msg : String)
  | decode (msg : String)
deriving DecidableEq, Repr

/-- One iteration of the `for coin_record, cs in zip(...)` loop body of
`list_nfts`: decode puzzle and solution (errors propagate), try
`get_nft_info` (errors skip the coin), drop owner mismatches, append the
rest. -/
def process_coin
    (fromhex : String → Except String Program)
    (get_nft_info : Coin → Program → Program → Except ExtractError NFTInfo)
    (queried_puzzle_hash_hex : String)
    (data : List NFTInfo) (coin_record : CoinRecord) (cs : PuzzleAndSolution) :
    Except ListNftsError (List NFTInfo) := do
  let puzzle ← (fromhex cs.puzzle_reveal).mapError ListNftsError.decode
  let solution ← (fromhex cs.solution).mapError ListNftsError.decode
  match get_nft_info coin_record.coin puzzle solution with
  | .error _ => pure data
  | .ok nft_info =>
    if nft_info.owner ≠ queried_puzzle_hash_hex then pure data
    else pure (data ++ [nft_info])

/-- The `/nfts` handler body after `get_coin_records_by_hint`: fetch every
coin's puzzle and solution concurrently (`asyncio.gather` with default
`return_exceptions=False`, so the first failure propagates), then run the
per-coin loop. -/
def list_nfts
    (fromhex : String → Except String Program)
    (get_nft_info : Coin → Program → Program → Except ExtractError NFTInfo)
    (get_puzzle_and_solution : CoinRecord → Except String PuzzleAndSolution)
    (queried_puzzle_hash_hex : String)
    (coin_records : List CoinRecord) :
    Except ListNftsError (List NFTInfo) := do
  let pz_and_solutions ←
    (coin_records.mapM get_puzzle_and_solution).mapError ListNftsError.rpc
  (coin_records.zip pz_and_solutions).foldlM
    (fun data p =>
      process_coin fromhex get_nft_info queried_puzzle_hash_hex data p.1 p.2)
    []

/-! ## Concrete fixtures

Small concrete coins, fetchers, decoders and extractors used to instantiate
the theorems below on closed inputs. -/

/-- A fully populated NFTInfo whose owner is the hex string `"ph"`. -/
def nftInfoA : NFTInfo :=
  { launcher_id := "launcher"
    owner := "ph"
    current_owner_did := none
    metadata_uris := ["https://x/1.json"]
    metadata_hash := "mh"
    license_uris := []
    royalty_address := "ra"
    royalty_percentage := 500
    transfer_program_hash := "tp" }

/-- First fixture coin. -/
def coinA : Coin := ⟨"parentA", "hintA", 1⟩

/-- Second fixture coin. -/
def coinB : Coin := ⟨"parentB", "hintB", 2⟩

/-- Unspent record of `coinA`. -/
def recA : CoinRecord := ⟨coinA, 10, false⟩

/-- Unspent record of `coinB`. -/
def recB : CoinRecord := ⟨coinB, 11, false⟩

/-- A spent coin record, amount 7. -/
def recSpent : CoinRecord := ⟨⟨"p1", "h1", 7⟩, 1, true⟩

/-- An unspent coin record, amount 5. -/
def recUnspent : CoinRecord := ⟨⟨"p2", "h2", 5⟩, 2, false⟩

/-- A puzzle/solution pair whose bytes both decode. -/
def psGood : PuzzleAndSolution := ⟨"good", "good"⟩

/-- A puzzle/solution pair with malformed puzzle bytes. -/
def psBad : PuzzleAndSolution := ⟨"bad", "good"⟩

/-- A decoder that fails exactly on the string `"bad"`. -/
def fromhexTest (s : String) : Except String Program :=
  if s = "bad" then Except.error "MalformedEncoding"
  else Except.ok (Program.atom [])

/-- An extractor that always succeeds with `nftInfoA`. -/
def extractOkTest (_c : Coin) (_p _s : Program) : Except ExtractError NFTInfo :=
  Except.ok nftInfoA

/-- An extractor that always fails with `UnsupportedNFTVersion`. -/
def extractUnsupported (_c : Coin) (_p _s : Program) :
    Except ExtractError NFTInfo :=
  Except.error ExtractError.unsupportedNFTVersion

/-- An extractor that always fails with `NotAnNFT`. -/
def extractNotAnNFT (_c : Coin) (_p _s : Program) :
    Except ExtractError NFTInfo :=
  Except.error ExtractError.notAnNFT

/-- A fetcher that hands `coinA` the malformed pair and everyone else the
good one. -/
def fetchAB (r : CoinRecord) : Except String PuzzleAndSolution :=
  if r.coin.parent_coin_info = "parentA" then Except.ok psBad
  else Except.ok psGood

/-- A fetcher that always succeeds with the good pair. -/
def fetchGood (_r : CoinRecord) : Except String PuzzleAndSolution :=
  Except.ok psGood

/-- A fetcher that fails with an RpcError exactly for `coinA`. -/
def fetchFailA (r : CoinRecord) : Except String PuzzleAndSolution :=
  if r.coin.parent_coin_info = "parentA" then Except.error "RpcError"
  else Except.ok psGood

/-- Decidable equality for `Except`, for evaluating the fixtures. -/
instance {ε α : Type} [DecidableEq ε] [DecidableEq α] :
    DecidableEq (Except ε α) :=
  fun a b =>
    match a, b with
    | .ok x, .ok y =>
      if h : x = y then isTrue (by rw [h])
      else isFalse (by intro hc; cases hc; exact h rfl)
    | .error x, .error y =>
      if h : x = y then isTrue (by rw [h])
      else isFalse (by intro hc; cases hc; exact h rfl)
    | .ok _, .error _ => isFalse (by intro hc; cases hc)
    | .error _, .ok _ => isFalse (by intro hc; cases hc)

/-! ## Theorems: the Program codec (claim C8) -/

theorem readBytes_append (bs rest : List Nat) :
    readBytes bs.length (bs ++ rest) = some (bs, rest) := by
  simp [readBytes, List.take_left, List.drop_left]

theorem decodeSize_sizeBlob (n : Nat) (h : n < 0x400000000) (s : List Nat) :
    ∃ b t, sizeBlob n ++ s = b :: t ∧ b ≠ 0xFF ∧ 0x80 ≤ b ∧
      decodeSize b t = some (n, s) := by
  unfold sizeBlob
  split_ifs with h1 h2 h3 h4
  · refine ⟨0x80 + n, s, rfl, by omega, by omega, ?_⟩
    unfold decodeSize
    rw [if_pos (by omega)]
    exact congrArg (fun k => some (k, s)) (by omega)
  · refine ⟨0xC0 + n / 0x100, _, rfl, by omega, by omega, ?_⟩
    unfold decodeSize
    rw [if_neg (by omega), if_pos (by omega)]
    show some ((0xC0 + n / 0x100 - 0xC0) * 0x100 + n % 0x100, s) = some (n, s)
    exact congrArg (fun k => some (k, s)) (by omega)
  · refine ⟨0xE0 + n / 0x10000, _, rfl, by omega, by omega, ?_⟩
    unfold decodeSize
    rw [if_neg (by omega), if_neg (by omega), if_pos (by omega)]
    show some (((0xE0 + n / 0x10000 - 0xE0) * 0x100 + n / 0x100 % 0x100) * 0x100
      + n % 0x100, s) = some (n, s)
    exact congrArg (fun k => some (k, s)) (by omega)
  · refine ⟨0xF0 + n / 0x1000000, _, rfl, by omega, by omega, ?_⟩
    unfold decodeSize
    rw [if_neg (by omega), if_neg (by omega), if_neg (by omega), if_pos (by omega)]
    show some ((((0xF0 + n / 0x1000000 - 0xF0) * 0x100 + n / 0x10000 % 0x100) * 0x100
      + n / 0x100 % 0x100) * 0x100 + n % 0x100, s) = some (n, s)
    exact congrArg (fun k => some (k, s)) (by omega)
  · refine ⟨0xF8 + n / 0x100000000, _, rfl, by omega, by omega, ?_⟩
    unfold decodeSize
    rw [if_neg (by omega), if_neg (by omega), if_neg (by omega), if_neg (by omega),
      if_pos (by omega)]
    show some (((((0xF8 + n / 0x100000000 - 0xF8) * 0x100 + n / 0x1000000 % 0x100) * 0x100
      + n / 0x10000 % 0x100) * 0x100 + n / 0x100 % 0x100) * 0x100 + n % 0x100, s)
      = some (n, s)
    exact congrArg (fun k => some (k, s)) (by omega)

theorem decodeFuel_sizeBlob (fuel : Nat) (bs rest : List Nat)
    (h : bs.length < 0x400000000) :
    decodeFuel (fuel + 1) (sizeBlob bs.length ++ (bs ++ rest))
      = some (.atom bs, rest) := by
  obtain ⟨b, t, heq, hff, hge, hdec⟩ := decodeSize_sizeBlob bs.length h (bs ++ rest)
  rw [heq]
  simp only [decodeFuel]
  rw [if_neg hff, if_neg (by omega), hdec]
  simp [readBytes_append]

theorem decodeFuel_encode : ∀ (P : Program), validProgram P = true →
    ∀ fuel rest, nodeCount P ≤ fuel →
      decodeFuel fuel (encode P ++ rest) = some (P, rest) := by
  intro P
  induction P with
  | atom bs =>
    intro hP fuel rest hfuel
    obtain ⟨f, rfl⟩ : ∃ f, fuel = f + 1 :=
      ⟨fuel - 1, by simp [nodeCount] at hfuel; omega⟩
    have hlen : bs.length < 0x400000000 := by
      simpa [validProgram] using hP
    match bs with
    | [b] =>
      by_cases hb : b < 0x80
      · simp only [encode, if_pos hb, List.cons_append, List.nil_append]
        simp only [decodeFuel]
        rw [if_neg (by omega), if_pos hb]
      · simp only [encode, if_neg hb]
        have h1 := decodeFuel_sizeBlob f [b] rest (by norm_num)
        simpa using h1
    | [] =>
      have h1 := decodeFuel_sizeBlob f [] rest (by norm_num)
      simpa [encode] using h1
    | a :: c :: tl =>
      have h1 := decodeFuel_sizeBlob f (a :: c :: tl) rest hlen
      simpa [encode, List.append_assoc] using h1
  | pair pf pr ihf ihr =>
    intro hP fuel rest hfuel
    obtain ⟨f, rfl⟩ : ∃ f, fuel = f + 1 :=
      ⟨fuel - 1, by simp [nodeCount] at hfuel; omega⟩
    have hv : validProgram pf = true ∧ validProgram pr = true := by
      simpa [validProgram] using hP
    have hcount : nodeCount pf ≤ f ∧ nodeCount pr ≤ f := by
      simp [nodeCount] at hfuel; omega
    simp only [encode, List.cons_append, List.append_assoc]
    simp only [decodeFuel]
    rw [if_pos trivial, ihf hv.1 f (encode pr ++ rest) hcount.1]
    simp [ihr hv.2 f rest hcount.2]

theorem sizeBlob_length_pos (n : Nat) (h : n < 0x400000000) :
    1 ≤ (sizeBlob n).length := by
  unfold sizeBlob
  split_ifs <;> simp

theorem nodeCount_le_encode_length : ∀ P, validProgram P = true →
    nodeCount P ≤ (encode P).length := by
  intro P
  induction P with
  | atom bs =>
    intro hP
    have hlen : bs.length < 0x400000000 := by simpa [validProgram] using hP
    match bs with
    | [b] =>
      by_cases hb : b < 0x80
      · simp [encode, if_pos hb, nodeCount]
      · simp only [encode, if_neg hb, nodeCount, List.length_append]
        have := sizeBlob_length_pos 1 (by norm_num)
        omega
    | [] =>
      simp only [encode, nodeCount, List.length_append]
      have := sizeBlob_length_pos 0 (by norm_num)
      simp; omega
    | a :: c :: tl =>
      simp only [encode, nodeCount, List.length_append]
      have := sizeBlob_length_pos (a :: c :: tl).length hlen
      omega
  | pair pf pr ihf ihr =>
    intro hP
    have hv : validProgram pf = true ∧ validProgram pr = true := by
      simpa [validProgram] using hP
    have h1 := ihf hv.1
    have h2 := ihr hv.2
    simp only [encode, nodeCount, List.length_cons, List.length_append]
    omega

theorem decode_encode (P : Program) (hP : validProgram P = true) :
    decode (encode P) = some (P, []) := by
  have h := decodeFuel_encode P hP (encode P).length []
    (nodeCount_le_encode_length P hP)
  simpa [decode] using h

/-- Claim C8: for every valid Program `P`, decoding its encoding returns `P`
with the whole stream consumed, and every canonical byte string `B` (the
encoding of some valid Program) decodes to a Program that re-encodes to
exactly `B`. -/
theorem C8_program_codec_round_trip (P : Program) (B : List Nat)
    (hP : validProgram P = true) (hB : canonicalBytes B) :
    decode (encode P) = some (P, []) ∧
      ∃ Q, decode B = some (Q, []) ∧ encode Q = B := by
  refine ⟨decode_encode P hP, ?_⟩
  obtain ⟨Q, hQ, rfl⟩ := hB
  exact ⟨Q, decode_encode Q hQ, rfl⟩

/-- Concrete instance of the codec round trip: the pair `([0x01 0xC8] . nil)`
and the canonical bytes `[0x82, 0x01, 0xC8]`. -/
theorem C8_witness :
    decode (encode (Program.pair (Program.atom [1, 200]) (Program.atom [])))
        = some (Program.pair (Program.atom [1, 200]) (Program.atom []), []) ∧
      ∃ Q, decode [0x82, 1, 200] = some (Q, []) ∧ encode Q = [0x82, 1, 200] :=
  C8_program_codec_round_trip _ _ (by decide)
    ⟨Program.atom [1, 200], by decide, by decide⟩

theorem process_coin_decode_ok
    (dh : String → Program)
    (ex : Coin → Program → Program → Except ExtractError NFTInfo)
    (ph : String) (data : List NFTInfo) (cr : CoinRecord)
    (cs : PuzzleAndSolution) :
    process_coin (fun s => Except.ok (dh s)) ex ph data cr cs =
      match ex cr.coin (dh cs.puzzle_reveal) (dh cs.solution) with
      | .error _ => Except.ok data
      | .ok i =>
        if i.owner = ph then Except.ok (data ++ [i]) else Except.ok data := by
  show (match ex cr.coin (dh cs.puzzle_reveal) (dh cs.solution) with
    | .error _ => (pure data : Except ListNftsError (List NFTInfo))
    | .ok nft_info =>
      if nft_info.owner ≠ ph then pure data else pure (data ++ [nft_info])) = _
  cases ex cr.coin (dh cs.puzzle_reveal) (dh cs.solution) with
  | error e => rfl
  | ok i =>
    by_cases h : i.owner = ph <;> simp [h] <;> rfl

theorem mapM_ok_of_total {a b : Type} (g : a → b) (rs : List a) :
    rs.mapM (fun r => (Except.ok (g r) : Except String b)) =
      Except.ok (rs.map g) := by
  induction rs with
  | nil => rfl
  | cons x tl ih => rw [List.mapM_cons, ih]; rfl

theorem zip_self_map {a b : Type} (g : a → b) (rs : List a) :
    rs.zip (rs.map g) = rs.map (fun r => (r, g r)) := by
  induction rs with
  | nil => rfl
  | cons x tl ih => simp [ih]

theorem except_ok_bind {e a b : Type} (x : a) (k : a → Except e b) :
    (Except.ok x : Except e a) >>= k = k x := rfl

theorem except_error_bind {e a b : Type} (err : e) (k : a → Except e b) :
    (Except.error err : Except e a) >>= k = Except.error err := rfl

theorem foldlM_extraction_ok
    (dh : String → Program)
    (ex : Coin → Program → Program → Except ExtractError NFTInfo)
    (g : CoinRecord → PuzzleAndSolution) (ph : String) :
    ∀ (rs : List CoinRecord) (data : List NFTInfo),
      ((rs.map (fun r => (r, g r))).foldlM
          (fun data p =>
            process_coin (fun s => Except.ok (dh s)) ex ph data p.1 p.2)
          data)
        = Except.ok (data ++ rs.filterMap (fun r =>
            match ex r.coin (dh (g r).puzzle_reveal) (dh (g r).solution) with
            | .error _ => none
            | .ok i => if i.owner = ph then some i else none)) := by
  intro rs
  induction rs with
  | nil => intro data; simp; rfl
  | cons a tl ih =>
    intro data
    rw [List.map_cons, List.foldlM_cons, process_coin_decode_ok,
      List.filterMap_cons]
    cases hex : ex a.coin (dh (g a).puzzle_reveal) (dh (g a).solution) with
    | error e => simp [except_ok_bind, ih]
    | ok i =>
      by_cases h : i.owner = ph
      · simp [h, except_ok_bind, ih]
      · simp [h, except_ok_bind, ih]

/-- Claim C1 (amended): list_nfts isolates extraction failures only.  When
every RPC fetch succeeds and every puzzle/solution byte string decodes, a
coin whose get_nft_info call fails is skipped and every other coin still
contributes its NFTInfo (subject to the owner filter), with no exception
escaping: the result is exactly the per-coin filterMap. -/
theorem C1_extraction_isolation
    (dh : String → Program)
    (ex : Coin → Program → Program → Except ExtractError NFTInfo)
    (g : CoinRecord → PuzzleAndSolution) (ph : String)
    (rs : List CoinRecord) :
    list_nfts (fun s => Except.ok (dh s)) ex (fun r => Except.ok (g r)) ph rs
      = Except.ok (rs.filterMap (fun r =>
          match ex r.coin (dh (g r).puzzle_reveal) (dh (g r).solution) with
          | .error _ => none
          | .ok i => if i.owner = ph then some i else none)) := by
  unfold list_nfts
  rw [mapM_ok_of_total]
  show ((rs.zip (rs.map g)).foldlM
      (fun data p =>
        process_coin (fun s => Except.ok (dh s)) ex ph data p.1 p.2) []) = _
  rw [zip_self_map]
  simpa using foldlM_extraction_ok dh ex g ph rs []

/-- Claim C1 counterexample: a two-coin batch in which coin A's puzzle bytes
are malformed and coin B extracts fine returns a decode error — coin B's
NFTInfo is lost and the exception escapes the batch call (second conjunct:
the same coin B alone yields its NFTInfo). -/
theorem C1_counterexample :
    list_nfts fromhexTest extractOkTest fetchAB "ph" [recA, recB]
      = Except.error (ListNftsError.decode "MalformedEncoding") ∧
    list_nfts fromhexTest extractOkTest fetchAB "ph" [recB]
      = Except.ok [nftInfoA] :=
  ⟨by decide, by decide⟩

theorem mapM_error_of_mem {a b : Type} (fetch : a → Except String b) :
    ∀ rs : List a, (∃ r ∈ rs, ∃ e, fetch r = Except.error e) →
      ∃ e, rs.mapM fetch = Except.error e := by
  intro rs
  induction rs with
  | nil =>
    rintro ⟨r, hr, _⟩
    exact absurd hr (List.not_mem_nil r)
  | cons x tl ih =>
    rintro ⟨r, hr, e, he⟩
    cases hfa : fetch x with
    | error e2 =>
      exact ⟨e2, by rw [List.mapM_cons, hfa, except_error_bind]⟩
    | ok v =>
      have hex : ∃ r ∈ tl, ∃ e, fetch r = Except.error e := by
        rcases List.mem_cons.mp hr with h1 | h2
        · subst h1; rw [hfa] at he; cases he
        · exact ⟨r, h2, e, he⟩
      obtain ⟨e3, h3⟩ := ih hex
      refine ⟨e3, ?_⟩
      rw [List.mapM_cons, hfa, except_ok_bind, h3, except_error_bind]

/-- Claim C2 (amended): an RpcError from get_puzzle_and_solution for any
coin in the batch makes the whole /nfts call fail — asyncio.gather (default
return_exceptions=False) propagates the exception, so the sibling coins are
not processed at all. -/
theorem C2_rpc_failure_aborts
    (fromhex : String → Except String Program)
    (ex : Coin → Program → Program → Except ExtractError NFTInfo)
    (fetch : CoinRecord → Except String PuzzleAndSolution)
    (ph : String) (rs : List CoinRecord)
    (h : ∃ r ∈ rs, ∃ e, fetch r = Except.error e) :
    ∃ e, list_nfts fromhex ex fetch ph rs
      = Except.error (ListNftsError.rpc e) := by
  obtain ⟨e, he⟩ := mapM_error_of_mem fetch rs h
  refine ⟨e, ?_⟩
  unfold list_nfts
  rw [he]
  rfl

/-- Concrete instance of `C2_rpc_failure_aborts`: coin A's fetch fails, so
the two-coin batch errors. -/
theorem C2_witness :
    ∃ e, list_nfts fromhexTest extractOkTest fetchFailA "ph" [recA, recB]
      = Except.error (ListNftsError.rpc e) :=
  C2_rpc_failure_aborts fromhexTest extractOkTest fetchFailA "ph" [recA, recB]
    ⟨recA, by decide, "RpcError", by decide⟩

/-- Claim C2 counterexample: coin A's RPC fetch fails while coin B alone
would yield its NFTInfo (second conjunct); the two-coin batch nevertheless
returns an RPC error, so coin B was not processed. -/
theorem C2_counterexample :
    list_nfts fromhexTest extractOkTest fetchFailA "ph" [recA, recB]
      = Except.error (ListNftsError.rpc "RpcError") ∧
    list_nfts fromhexTest extractOkTest fetchFailA "ph" [recB]
      = Except.ok [nftInfoA] :=
  ⟨by decide, by decide⟩

theorem process_coin_ok_cases
    (fromhex : String → Except String Program)
    (ex : Coin → Program → Program → Except ExtractError NFTInfo)
    (ph : String) (data : List NFTInfo) (cr : CoinRecord)
    (cs : PuzzleAndSolution) (data2 : List NFTInfo)
    (h : process_coin fromhex ex ph data cr cs = Except.ok data2) :
    data2 = data ∨ ∃ i, data2 = data ++ [i] ∧ i.owner = ph := by
  unfold process_coin at h
  cases hfp : fromhex cs.puzzle_reveal with
  | error e =>
    rw [hfp] at h
    simp [Except.mapError, except_error_bind] at h
  | ok p =>
    rw [hfp] at h
    cases hfs : fromhex cs.solution with
    | error e =>
      rw [hfs] at h
      simp [Except.mapError, except_error_bind, except_ok_bind] at h
    | ok sol =>
      rw [hfs] at h
      simp only [Except.mapError, except_ok_bind] at h
      cases hex : ex cr.coin p sol with
      | error e =>
        rw [hex] at h
        injection h with h
        exact Or.inl h.symm
      | ok i =>
        rw [hex] at h
        by_cases ho : i.owner = ph
        · simp [ho] at h
          exact Or.inr ⟨i, (Except.ok.inj h).symm, ho⟩
        · simp [ho] at h
          exact Or.inl (Except.ok.inj h).symm

theorem foldlM_owner_invariant
    (fromhex : String → Except String Program)
    (ex : Coin → Program → Program → Except ExtractError NFTInfo)
    (ph : String) :
    ∀ (pairs : List (CoinRecord × PuzzleAndSolution))
      (data l : List NFTInfo),
      (∀ i ∈ data, i.owner = ph) →
      pairs.foldlM
          (fun d p => process_coin fromhex ex ph d p.1 p.2) data
        = Except.ok l →
      ∀ i ∈ l, i.owner = ph := by
  intro pairs
  induction pairs with
  | nil =>
    intro data l hd h
    rw [List.foldlM_nil] at h
    cases Except.ok.inj h
    exact hd
  | cons p tl ih =>
    intro data l hd h
    rw [List.foldlM_cons] at h
    cases hpc : process_coin fromhex ex ph data p.1 p.2 with
    | error e => rw [hpc, except_error_bind] at h; cases h
    | ok data2 =>
      rw [hpc, except_ok_bind] at h
      have hd2 : ∀ i ∈ data2, i.owner = ph := by
        rcases process_coin_ok_cases fromhex ex ph data p.1 p.2 data2 hpc with
          h1 | ⟨i, h2, h3⟩
        · subst h1; exact hd
        · subst h2
          intro j hj
          rcases List.mem_append.mp hj with hj1 | hj2
          · exact hd j hj1
          · rw [List.mem_singleton] at hj2; subst hj2; exact h3
      exact ih data2 l hd2 h

/-- Claim C3: whenever /nfts returns successfully, every NFTInfo in the
response has owner equal to the hex of the puzzle hash the caller queried
by — owner mismatches are silently dropped, never raised as errors. -/
theorem C3_owner_filter
    (fromhex : String → Except String Program)
    (ex : Coin → Program → Program → Except ExtractError NFTInfo)
    (fetch : CoinRecord → Except String PuzzleAndSolution)
    (ph : String) (rs : List CoinRecord) (l : List NFTInfo)
    (h : list_nfts fromhex ex fetch ph rs = Except.ok l) :
    ∀ i ∈ l, i.owner = ph := by
  unfold list_nfts at h
  cases hm : rs.mapM fetch with
  | error e =>
    rw [hm] at h
    simp [Except.mapError, except_error_bind] at h
  | ok ps =>
    rw [hm] at h
    simp only [Except.mapError, except_ok_bind] at h
    exact foldlM_owner_invariant fromhex ex ph (rs.zip ps) [] l
      (by intro i hi; cases hi) h

/-- Concrete instance of `C3_owner_filter`: the one NFTInfo returned for
the fixture batch carries the queried owner hash. -/
theorem C3_witness : nftInfoA.owner = "ph" :=
  C3_owner_filter fromhexTest extractOkTest fetchGood "ph" [recA] [nftInfoA]
    (by decide) nftInfoA (by decide)

theorem process_coin_extract_congr
    (fromhex : String → Except String Program)
    (ex1 ex2 : Coin → Program → Program → Except ExtractError NFTInfo)
    (ph : String) (data : List NFTInfo) (cr : CoinRecord)
    (cs : PuzzleAndSolution)
    (h : ∀ c p s, (ex1 c p s).toOption = (ex2 c p s).toOption) :
    process_coin fromhex ex1 ph data cr cs
      = process_coin fromhex ex2 ph data cr cs := by
  unfold process_coin
  cases hfp : fromhex cs.puzzle_reveal with
  | error e => rfl
  | ok p =>
    cases hfs : fromhex cs.solution with
    | error e => rfl
    | ok sol =>
      simp only [Except.mapError, except_ok_bind]
      have hps := h cr.coin p sol
      cases hx1 : ex1 cr.coin p sol with
      | error e1 =>
        cases hx2 : ex2 cr.coin p sol with
        | error e2 => rfl
        | ok j =>
          rw [hx1, hx2] at hps
          simp [Except.toOption] at hps
      | ok i =>
        cases hx2 : ex2 cr.coin p sol with
        | error e2 =>
          rw [hx1, hx2] at hps
          simp [Except.toOption] at hps
        | ok j =>
          rw [hx1, hx2] at hps
          simp [Except.toOption] at hps
          subst hps
          rfl

theorem foldlM_extract_congr
    (fromhex : String → Except String Program)
    (ex1 ex2 : Coin → Program → Program → Except ExtractError NFTInfo)
    (ph : String)
    (h : ∀ c p s, (ex1 c p s).toOption = (ex2 c p s).toOption) :
    ∀ (pairs : List (CoinRecord × PuzzleAndSolution)) (data : List NFTInfo),
      pairs.foldlM (fun d p => process_coin fromhex ex1 ph d p.1 p.2) data
        = pairs.foldlM (fun d p => process_coin fromhex ex2 ph d p.1 p.2) data := by
  intro pairs
  induction pairs with
  | nil => intro data; rfl
  | cons p tl ih =>
    intro data
    rw [List.foldlM_cons, List.foldlM_cons,
      process_coin_extract_congr fromhex ex1 ex2 ph data p.1 p.2 h]
    cases process_coin fromhex ex2 ph data p.1 p.2 with
    | error e => rw [except_error_bind, except_error_bind]
    | ok data2 => rw [except_ok_bind, except_ok_bind, ih data2]

/-- Claim C5 (amended): list_nfts treats an UnsupportedNFTVersion failure
exactly like any other extraction failure — the `except Exception: continue`
handler swallows it silently, so the response depends only on which coins
extract successfully, never on the error kind; nothing is logged or
counted. -/
theorem C5_error_kinds_indistinguishable
    (fromhex : String → Except String Program)
    (fetch : CoinRecord → Except String PuzzleAndSolution)
    (ph : String) (rs : List CoinRecord)
    (ex1 ex2 : Coin → Program → Program → Except ExtractError NFTInfo)
    (h : ∀ c p s, (ex1 c p s).toOption = (ex2 c p s).toOption) :
    list_nfts fromhex ex1 fetch ph rs = list_nfts fromhex ex2 fetch ph rs := by
  unfold list_nfts
  cases hm : rs.mapM fetch with
  | error e => rfl
  | ok ps =>
    simp only [Except.mapError, except_ok_bind]
    exact foldlM_extract_congr fromhex ex1 ex2 ph h (rs.zip ps) []

/-- Concrete instance of `C5_error_kinds_indistinguishable`: swapping an
extractor that always fails with UnsupportedNFTVersion for one that always
fails with NotAnNFT leaves the response unchanged. -/
theorem C5_witness :
    list_nfts fromhexTest extractUnsupported fetchGood "ph" [recB]
      = list_nfts fromhexTest extractNotAnNFT fetchGood "ph" [recB] :=
  C5_error_kinds_indistinguishable fromhexTest fetchGood "ph" [recB]
    extractUnsupported extractNotAnNFT (fun _c _p _s => rfl)

/-- Claim C5 counterexample: a coin failing with UnsupportedNFTVersion
produces exactly the same observable outcome as one failing with NotAnNFT —
an empty success response — so the failure is not surfaced, logged or
counted anywhere. -/
theorem C5_counterexample :
    list_nfts fromhexTest extractUnsupported fetchGood "ph" [recA]
      = list_nfts fromhexTest extractNotAnNFT fetchGood "ph" [recA] ∧
    list_nfts fromhexTest extractUnsupported fetchGood "ph" [recA]
      = Except.ok [] :=
  ⟨by decide, by decide⟩

/-! ## Theorems: caching, the allow list, balances and UTXOs -/

/-- Claim C4: the /utxos, /balance and /nfts cache keys are built from the
address alone, so two requests with the same address and different chain
ids map to the same cache entry; in the get-or-compute cache model the
second chain's request is served the first chain's stored response. -/
theorem C4_cache_key_ignores_chain (address c1 c2 : String)
    (resp1 resp2 : String) :
    utxos_key_builder address c1 = utxos_key_builder address c2 ∧
    balance_key_builder address c1 = balance_key_builder address c2 ∧
    nfts_key_builder address c1 = nfts_key_builder address c2 ∧
    (cache_get_or_set
        (cache_get_or_set ([] : List (String × String))
          (utxos_key_builder address c1) resp1).2
        (utxos_key_builder address c2) resp2).1 = resp1 := by
  refine ⟨rfl, rfl, rfl, ?_⟩
  simp [cache_get_or_set, utxos_key_builder, List.lookup]

/-- Claim C6: /chia_rpc rejects any method outside the allow list with
HTTP 400 and an error detail naming the method, without calling the backend
(the outcome is the same for any raw_fetch); an allow-listed method is
passed through to raw_fetch with its params and the result returned
unchanged. -/
theorem C6_rpc_allowlist {Params Response : Type}
    (wl : List String) (m : String) (p : Params)
    (rf rf2 : String → Params → Response) :
    (m ∉ wl →
      full_node_rpc wl rf m p
          = Except.error ⟨400, "unspport chia rpc method: " ++ m⟩ ∧
        full_node_rpc wl rf m p = full_node_rpc wl rf2 m p) ∧
    (m ∈ wl → full_node_rpc wl rf m p = Except.ok (rf m p)) := by
  constructor
  · intro h
    constructor <;> simp [full_node_rpc, h]
  · intro h
    simp [full_node_rpc, h]

/-- Concrete instance of `C6_rpc_allowlist` with a one-method allow list:
a rejected method and a passed-through method. -/
theorem C6_witness :
    (full_node_rpc ["get_blockchain_state"] (fun m p => String.append m p)
          "bad_method" "x"
        = Except.error ⟨400, "unspport chia rpc method: " ++ "bad_method"⟩ ∧
      full_node_rpc ["get_blockchain_state"] (fun m p => String.append m p)
          "bad_method" "x"
        = full_node_rpc ["get_blockchain_state"] (fun m p => String.append p m)
            "bad_method" "x") ∧
    full_node_rpc ["get_blockchain_state"] (fun m p => String.append m p)
        "get_blockchain_state" "x"
      = Except.ok (String.append "get_blockchain_state" "x") :=
  ⟨(C6_rpc_allowlist ["get_blockchain_state"] "bad_method" "x"
      (fun m p => String.append m p) (fun m p => String.append p m)).1
      (by decide),
    (C6_rpc_allowlist ["get_blockchain_state"] "get_blockchain_state" "x"
      (fun m p => String.append m p) (fun m p => String.append p m)).2
      (by decide)⟩

/-- Claim C7: the cached read endpoints are keyed by endpoint name plus
address and their TTLs are 10 for /utxos, 10 for /balance and 20 for /nfts,
all within the 10–20 range. -/
theorem C7_cache_config :
    utxos_cached.ttl = 10 ∧ balance_cached.ttl = 10 ∧ nfts_cached.ttl = 20 ∧
    (10 ≤ utxos_cached.ttl ∧ utxos_cached.ttl ≤ 20) ∧
    (10 ≤ balance_cached.ttl ∧ balance_cached.ttl ≤ 20) ∧
    (10 ≤ nfts_cached.ttl ∧ nfts_cached.ttl ≤ 20) ∧
    (∀ a c, utxos_cached.key_builder a c = "utxos" ++ ":" ++ a) ∧
    (∀ a c, balance_cached.key_builder a c = "balance" ++ ":" ++ a) ∧
    (∀ a c, nfts_cached.key_builder a c = "nfts" ++ ":" ++ a) :=
  ⟨rfl, rfl, rfl, by decide, by decide, by decide,
    fun _a _c => rfl, fun _a _c => rfl, fun _a _c => rfl⟩

theorem query_balance_cons (x : CoinRecord) (rs : List CoinRecord) :
    query_balance (x :: rs)
      = (if x.spent then 0 else x.coin.amount) + query_balance rs := by
  cases hx : x.spent <;> simp [query_balance, hx]

theorem query_balance_filterMap (rs : List CoinRecord) :
    query_balance rs
      = (rs.filterMap
          (fun x => if x.spent = false then some x.coin.amount else none)).sum := by
  induction rs with
  | nil => rfl
  | cons a tl ih =>
    rw [query_balance_cons, List.filterMap_cons]
    cases ha : a.spent <;> simp [ha, ih]

theorem query_balance_all_spent (rs : List CoinRecord)
    (hall : ∀ x ∈ rs, x.spent = true) : query_balance rs = 0 := by
  induction rs with
  | nil => rfl
  | cons a tl ih =>
    rw [query_balance_cons, hall a (List.mem_cons_self a tl), if_pos rfl,
      Nat.zero_add]
    exact ih (fun x hx => hall x (List.mem_cons_of_mem a hx))

theorem query_balance_skip_spent (r : CoinRecord) (hr : r.spent = true) :
    ∀ rs1 rs2 : List CoinRecord,
      query_balance (rs1 ++ r :: rs2) = query_balance (rs1 ++ rs2) := by
  intro rs1
  induction rs1 with
  | nil =>
    intro rs2
    rw [List.nil_append, List.nil_append, query_balance_cons, hr, if_pos rfl,
      Nat.zero_add]
  | cons a tl ih =>
    intro rs2
    rw [List.cons_append, List.cons_append, query_balance_cons,
      query_balance_cons, ih rs2]

/-- Claim C9: /balance sums coin amounts over exactly the returned records
whose spent flag is false; a spent record inserted anywhere contributes
nothing, an all-spent list yields 0, and an empty record list yields 0. -/
theorem C9_balance_unspent_sum
    (rs rs0 rs1 rs2 : List CoinRecord) (r : CoinRecord)
    (hr : r.spent = true) (hall : ∀ x ∈ rs0, x.spent = true) :
    query_balance rs
        = (rs.filterMap
            (fun x => if x.spent = false then some x.coin.amount else none)).sum
      ∧ query_balance (rs1 ++ r :: rs2) = query_balance (rs1 ++ rs2)
      ∧ query_balance rs0 = 0
      ∧ query_balance [] = 0 :=
  ⟨query_balance_filterMap rs, query_balance_skip_spent r hr rs1 rs2,
    query_balance_all_spent rs0 hall, rfl⟩

/-- Concrete instance of `C9_balance_unspent_sum` on a spent record of
amount 7 and an unspent record of amount 5. -/
theorem C9_witness :
    query_balance [recSpent, recUnspent]
        = ([recSpent, recUnspent].filterMap
            (fun x => if x.spent = false then some x.coin.amount else none)).sum
      ∧ query_balance ([recUnspent] ++ recSpent :: [recUnspent])
        = query_balance ([recUnspent] ++ [recUnspent])
      ∧ query_balance [recSpent] = 0
      ∧ query_balance [] = 0 :=
  C9_balance_unspent_sum [recSpent, recUnspent] [recSpent] [recUnspent]
    [recUnspent] recSpent (by decide) (by decide)

theorem get_utxos_filter_map (rs : List CoinRecord) :
    get_utxos rs
      = (rs.filter (fun r => !r.spent)).map
          (fun r => coin_javascript_compat r.coin) := by
  have hgo : ∀ (l : List CoinRecord) (data : List UTXO),
      l.foldl
          (fun d row =>
            if row.spent then d else d ++ [coin_javascript_compat row.coin])
          data
        = data ++ (l.filter (fun r => !r.spent)).map
            (fun r => coin_javascript_compat r.coin) := by
    intro l
    induction l with
    | nil => intro data; simp
    | cons a tl ih => intro data; cases ha : a.spent <;> simp [ha, ih]
  simpa [get_utxos] using hgo rs []

/-- Claim C10: every entry of the /utxos response comes from a coin record
whose spent flag is false; parent_coin_info and puzzle_hash are passed
through unchanged and amount is the decimal (base-10) string rendering of
the coin's integer amount. -/
theorem C10_utxos_postcondition (rs : List CoinRecord) (u : UTXO)
    (h : u ∈ get_utxos rs) :
    ∃ r ∈ rs, r.spent = false ∧
      u.parent_coin_info = r.coin.parent_coin_info ∧
      u.puzzle_hash = r.coin.puzzle_hash ∧
      u.amount = toString r.coin.amount ∧
      u.amount = (Nat.toDigits 10 r.coin.amount).asString := by
  rw [get_utxos_filter_map] at h
  obtain ⟨r, hr, rfl⟩ := List.mem_map.mp h
  have hrf := List.mem_filter.mp hr
  exact ⟨r, hrf.1, by simpa using hrf.2, rfl, rfl, rfl, rfl⟩

/-- Concrete instance of `C10_utxos_postcondition`: the single entry
returned for the fixture records is the unspent coin with amount "5". -/
theorem C10_witness :
    ∃ r ∈ [recSpent, recUnspent], r.spent = false ∧
      (UTXO.mk "p2" "h2" "5").parent_coin_info = r.coin.parent_coin_info ∧
      (UTXO.mk "p2" "h2" "5").puzzle_hash = r.coin.puzzle_hash ∧
      (UTXO.mk "p2" "h2" "5").amount = toString r.coin.amount ∧
      (UTXO.mk "p2" "h2" "5").amount
        = (Nat.toDigits 10 r.coin.amount).asString :=
  C10_utxos_postcondition [recSpent, recUnspent] ⟨"p2", "h2", "5"⟩ (by decide)
